import Mathlib

/-!
# Verification of `src/DataPipeline.py`

A shallow embedding of the `DataPipeline` class (sqlite-backed OHLCV price
pipeline) and proofs about its behaviour.

Modelling conventions:
* `datetime.date` values are abstracted to their day number (`Nat`); the date
  ordering of Python maps to `Nat` ordering.
* Python runtime values that can appear in a DataFrame cell or be passed to the
  sqlite driver are `PyValue`; values the `sqlite3` driver can bind
  (`None`/`int`/`float`/`str`, plus `datetime.date` through the default
  adapter) succeed, any other object raises `sqlite3.InterfaceError`.
* SQLite storage classes are `SQLValue`.  SQLite does not enforce declared
  column types on non-strict tables, so a bound text lands in a `REAL` column
  unchanged; the lossless numeric-text coercion of `REAL` affinity is elided
  because no theorem depends on it.
* Python floats are modelled as rationals; `NaN` cells produced by
  `pct_change` on too-short history are modelled as `Option.none` (the sqlite
  driver stores a `NaN` float as SQL `NULL`).  Missing (`NaN`) values inside
  the *input* adjusted-close series are outside the modelled fragment.
* Each of the Python exceptions relevant here is a constructor of `PyErr`.
  A raising Python call is `Except (PyErr × σ) σ` where `σ` is the state it
  may have mutated before raising.
-/

namespace DataPipeline

/-- A Python runtime value as it can occur in a DataFrame cell or in a
parameter tuple handed to `cursor.executemany`.  `pyObj` stands for any other
Python object (a list, a numpy scalar of unsupported kind, ...); the tag
distinguishes different such objects. -/
inductive PyValue where
  | pyNone : PyValue
  | pyInt : Int → PyValue
  | pyFloat : ℚ → PyValue
  | pyStr : String → PyValue
  | pyDate : Nat → PyValue
  | pyObj : Nat → PyValue
deriving DecidableEq

/-- A value as stored by SQLite (storage classes NULL, INTEGER, REAL, TEXT;
BLOB never occurs in this program). -/
inductive SQLValue where
  | null : SQLValue
  | int : Int → SQLValue
  | real : ℚ → SQLValue
  | text : String → SQLValue
deriving DecidableEq

/-- The Python exceptions this program can raise.  `valueError` is raised by
`download_data` on an invalid range (and by `yfinance`, where it is caught);
`interfaceError` is `sqlite3.InterfaceError` (unbindable parameter);
`integrityError` is `sqlite3.IntegrityError` (NOT NULL violation);
`typeError` is the pandas `TypeError` from arithmetic on a non-numeric
`Adj Close` column. -/
inductive PyErr where
  | valueError : PyErr
  | interfaceError : PyErr
  | integrityError : PyErr
  | typeError : PyErr
deriving DecidableEq

/-- The decimal digit characters of `d`, most significant first.
Helper for `dateText`. -/
def digitChars (d : Nat) : List Char :=
  ((Nat.digits 10 d).reverse).map (fun x => Char.ofNat (x + 48))

/-- The text the `sqlite3` default `datetime.date` adapter stores for the date
with day number `d`.  The adapter produces the ISO-8601 text of the date; with
dates abstracted to day numbers, the ISO text is abstracted to the decimal
text of the day number — all that matters is that the encoding is injective
and produces a TEXT value. -/
def dateText (d : Nat) : String :=
  String.mk (digitChars d)

/-- Parameter binding of the Python `sqlite3` driver: `None`, `int`, `float`
and `str` bind to the corresponding storage class, `datetime.date` binds via
the default adapter to its ISO text, and any other object raises
`sqlite3.InterfaceError`. -/
def bindValue : PyValue → Except PyErr SQLValue
  | .pyNone => .ok .null
  | .pyInt i => .ok (.int i)
  | .pyFloat q => .ok (.real q)
  | .pyStr s => .ok (.text s)
  | .pyDate d => .ok (.text (dateText d))
  | .pyObj _ => .error .interfaceError

/-- Whether the sqlite driver can bind this value. -/
def PyValue.bindable : PyValue → Bool
  | .pyObj _ => false
  | _ => true

/-- Whether pandas treats this cell as a number (for the purpose of
`pct_change` arithmetic). -/
def PyValue.numeric : PyValue → Bool
  | .pyInt _ => true
  | .pyFloat _ => true
  | _ => false

/-- The numeric content of a cell, if any. -/
def toRat : PyValue → Option ℚ
  | .pyInt i => some (i : ℚ)
  | .pyFloat q => some q
  | _ => none

/-- One row of the DataFrame returned by `yf.Ticker(...).history`: the
`DatetimeIndex` entry (abstracted to a day number) and the OHLCV columns.
Cells are arbitrary Python values; a well-behaved provider fills them with
floats. -/
structure Obs where
  date : Nat
  open_ : PyValue
  high : PyValue
  low : PyValue
  close : PyValue
  volume : PyValue
  adjClose : PyValue
deriving DecidableEq

/-- A row of the `price_data` table.  (`open_` because `open` is a Lean
keyword.) -/
structure PriceRow where
  ticker : SQLValue
  date : SQLValue
  open_ : SQLValue
  high : SQLValue
  low : SQLValue
  close : SQLValue
  volume : SQLValue
  adjClose : SQLValue
  assetClass : SQLValue
deriving DecidableEq

/-- A row of the `returns_data` table. -/
structure ReturnRow where
  ticker : SQLValue
  date : SQLValue
  return1d : SQLValue
  return5d : SQLValue
  return21d : SQLValue
  assetClass : SQLValue
deriving DecidableEq

/-- The PRIMARY KEY (ticker, date) of a price row. -/
def priceKey (r : PriceRow) : SQLValue × SQLValue := (r.ticker, r.date)

/-- The PRIMARY KEY (ticker, date) of a returns row. -/
def returnKey (r : ReturnRow) : SQLValue × SQLValue := (r.ticker, r.date)

/-- Effect of one `INSERT OR REPLACE INTO price_data` statement: the row
conflicting on the primary key (if any) is deleted and the new row inserted. -/
def upsertPriceRow (t : List PriceRow) (r : PriceRow) : List PriceRow :=
  (t.filter (fun x => !(priceKey x = priceKey r : Bool))) ++ [r]

/-- Effect of one `INSERT OR REPLACE INTO returns_data` statement. -/
def upsertReturnRow (t : List ReturnRow) (r : ReturnRow) : List ReturnRow :=
  (t.filter (fun x => !(returnKey x = returnKey r : Bool))) ++ [r]

/-- The state of the sqlite connection held by a `DataPipeline` instance:
the two committed tables, plus the statements already executed inside the
open (implicit) transaction and not yet committed.  `connection.commit()`
makes the pending statements durable; an exception raised mid-call leaves
them pending. -/
structure DB where
  prices : List PriceRow
  returns : List ReturnRow
  pendingPrices : List PriceRow
  pendingReturns : List ReturnRow
deriving DecidableEq

/-- The database right after `_setup_database` on a fresh file: both tables
created empty, nothing pending. -/
def emptyDB : DB := ⟨[], [], [], []⟩

/-- `self.connection.commit()`: every statement executed inside the open
transaction becomes durable, in execution order. -/
def commitDB (st : DB) : DB :=
  { prices := st.pendingPrices.foldl upsertPriceRow st.prices
    returns := st.pendingReturns.foldl upsertReturnRow st.returns
    pendingPrices := []
    pendingReturns := [] }

/-- Binding of one parameter tuple
`(ticker, date, Open, High, Low, Close, Volume, Adj Close, asset_class)`
(the column order built at `store_price_data` lines 141-150), followed by the
NOT NULL checks of the `price_data` schema on `ticker` and `date`. -/
def bindPriceRow (ticker : String) (ac : String) (o : Obs) :
    Except PyErr PriceRow := do
  let tv ← bindValue (.pyStr ticker)
  let dv ← bindValue (.pyDate o.date)
  let ov ← bindValue o.open_
  let hv ← bindValue o.high
  let lv ← bindValue o.low
  let cv ← bindValue o.close
  let vv ← bindValue o.volume
  let av ← bindValue o.adjClose
  let acv ← bindValue (.pyStr ac)
  let r : PriceRow := ⟨tv, dv, ov, hv, lv, cv, vv, av, acv⟩
  if r.ticker = SQLValue.null ∨ r.date = SQLValue.null then
    Except.error .integrityError
  else
    pure r

/-- `cursor.executemany` over the price parameter tuples: the statements run
one at a time inside the open transaction; the first row that fails to bind
(or violates a constraint) raises, leaving the earlier rows of the call
pending and uncommitted. -/
def executemanyPrices (st : DB) (ticker ac : String) :
    List Obs → Except (PyErr × DB) DB
  | [] => .ok st
  | o :: rest =>
    match bindPriceRow ticker ac o with
    | .error e => .error (e, st)
    | .ok r =>
        executemanyPrices
          { st with pendingPrices := st.pendingPrices ++ [r] } ticker ac rest

/-- `store_price_data` (source lines 121-158): build the parameter tuples
from the DataFrame, `executemany` the INSERT OR REPLACE, then
`connection.commit()`.  An exception from `executemany` propagates; the
commit is only reached when every row executed. -/
def store_price_data (st : DB) (ticker : String) (df : List Obs)
    (ac : String) : Except (PyErr × DB) DB :=
  match executemanyPrices st ticker ac df with
  | .error es => .error es
  | .ok st' => .ok (commitDB st')

/-- `pandas.Series.pct_change(periods=k)` on a series of rationals: entry `i`
is `x[i] / x[i-k] - 1` when index `i - k` exists, and missing (`NaN`) for the
first `k` entries.  (Exact-arithmetic note: with a zero denominator pandas
produces `inf`; no theorem below touches that case, where rational division
yields `0`.) -/
def pct_change (k : Nat) (xs : List ℚ) : List (Option ℚ) :=
  (List.range xs.length).map fun i =>
    if k ≤ i then some (xs.getD i 0 / xs.getD (i - k) 0 - 1) else none

/-- A missing (`NaN`) float cell versus a present one, as the value pandas
hands to the sqlite driver.  The driver stores `NaN` as SQL `NULL`, which the
model folds into `pyNone`. -/
def optFloat : Option ℚ → PyValue
  | some q => .pyFloat q
  | none => .pyNone

/-- Binding of one parameter tuple
`(ticker, date, return_1d, return_5d, return_21d, asset_class)` (the column
order built at `calculate_and_store_returns` lines 185-190), followed by the
NOT NULL checks of the `returns_data` schema. -/
def bindReturnRow (ticker : String) (ac : String) (date : Nat)
    (r1 r5 r21 : Option ℚ) : Except PyErr ReturnRow := do
  let tv ← bindValue (.pyStr ticker)
  let dv ← bindValue (.pyDate date)
  let v1 ← bindValue (optFloat r1)
  let v5 ← bindValue (optFloat r5)
  let v21 ← bindValue (optFloat r21)
  let acv ← bindValue (.pyStr ac)
  let r : ReturnRow := ⟨tv, dv, v1, v5, v21, acv⟩
  if r.ticker = SQLValue.null ∨ r.date = SQLValue.null then
    Except.error .integrityError
  else
    pure r

/-- Out-of-range placeholder used to express positional access as `getD`
(never actually read: all indices are in range). -/
def obsDefault : Obs := ⟨0, .pyNone, .pyNone, .pyNone, .pyNone, .pyNone, .pyNone⟩

/-- The per-index parameter data of the returns insert: dates zipped with the
three `pct_change` columns. -/
def returnTuples (df : List Obs) (c1 c5 c21 : List (Option ℚ)) :
    List (Nat × Option ℚ × Option ℚ × Option ℚ) :=
  (List.range df.length).map fun i =>
    ((df.getD i obsDefault).date, c1.getD i none, c5.getD i none,
      c21.getD i none)

/-- `cursor.executemany` over the returns parameter tuples; same transaction
behaviour as `executemanyPrices`. -/
def executemanyReturns (st : DB) (ticker ac : String) :
    List (Nat × Option ℚ × Option ℚ × Option ℚ) → Except (PyErr × DB) DB
  | [] => .ok st
  | (d, r1, r5, r21) :: rest =>
    match bindReturnRow ticker ac d r1 r5 r21 with
    | .error e => .error (e, st)
    | .ok r =>
        executemanyReturns
          { st with pendingReturns := st.pendingReturns ++ [r] } ticker ac rest

/-- The `Adj Close` column as numbers: `some` iff every cell is numeric.
A non-numeric cell makes the Series object-dtyped, and the `pct_change`
arithmetic on it raises `TypeError`. -/
def adjCloseCol : List Obs → Option (List ℚ)
  | [] => some []
  | o :: rest => do
      let q ← toRat o.adjClose
      let qs ← adjCloseCol rest
      pure (q :: qs)

/-- `calculate_and_store_returns` (source lines 160-199): compute the three
`pct_change` columns of `dataframe['Adj Close']`, build the parameter tuples,
`executemany` the INSERT OR REPLACE into `returns_data`, then commit.  If the
`Adj Close` column is not numeric, the pandas arithmetic raises `TypeError`
before the cursor is touched. -/
def calculate_and_store_returns (st : DB) (ticker : String) (df : List Obs)
    (ac : String) : Except (PyErr × DB) DB :=
  match adjCloseCol df with
  | none => .error (.typeError, st)
  | some xs =>
    match executemanyReturns st ticker ac
        (returnTuples df (pct_change 1 xs) (pct_change 5 xs)
          (pct_change 21 xs)) with
    | .error es => .error es
    | .ok st' => .ok (commitDB st')

/-- The outcome of `yf.Ticker(ticker).history(start, end, auto_adjust=False)`:
a DataFrame (possibly empty), or a raised `ValueError` (unknown ticker), or
any other raised exception (network/service fault). -/
inductive ProviderResult where
  | ok : List Obs → ProviderResult
  | raisesValueError : ProviderResult
  | raisesOther : ProviderResult
deriving DecidableEq

/-- The external market-data provider, as an opaque collaborator: what the
`yfinance` call returns for a given ticker and date range. -/
def Provider : Type := String → Nat → Nat → ProviderResult

/-- `download_data` (source lines 82-119): validate the range (raising
`ValueError` when `end <= start`, before the provider is contacted), then
call the provider inside `try`: both `except ValueError` and
`except Exception` log and return `None`; an empty DataFrame is also mapped
to `None`. -/
def download_data (p : Provider) (ticker : String) (start end_ : Nat) :
    Except PyErr (Option (List Obs)) :=
  if end_ ≤ start then .error .valueError
  else
    match p ticker start end_ with
    | .raisesValueError => .ok none
    | .raisesOther => .ok none
    | .ok df => if df.isEmpty then .ok none else .ok (some df)

/-- Trace instrumentation: one entry per call `build_database` makes, with the
arguments it passes.  The source does not keep such a log; it exists so that
theorems can speak about which calls a run performs and in which order. -/
inductive Event where
  | fetch : String → Option (List Obs) → Event
  | storePrices : String → List Obs → String → Event
  | storeReturns : String → List Obs → String → Event
deriving DecidableEq

/-- Database plus call log of a run. -/
structure RunState where
  db : DB
  log : List Event
deriving DecidableEq

/-- The body of the inner loop of `build_database` (source lines 213-217) for
one `(asset_class, ticker)` pair: download; if the result is `None` do
nothing further; otherwise store the prices and then the returns.  Exceptions
propagate. -/
def processTicker (p : Provider) (start end_ : Nat) (ac ticker : String)
    (rs : RunState) : Except (PyErr × RunState) RunState :=
  match download_data p ticker start end_ with
  | .error e => .error (e, rs)
  | .ok res =>
    let rs1 : RunState := { rs with log := rs.log ++ [.fetch ticker res] }
    match res with
    | none => .ok rs1
    | some df =>
      let rs2 : RunState :=
        { rs1 with log := rs1.log ++ [.storePrices ticker df ac] }
      match store_price_data rs1.db ticker df ac with
      | .error (e, db') => .error (e, { rs2 with db := db' })
      | .ok db1 =>
        let rs3 : RunState :=
          { db := db1, log := rs2.log ++ [.storeReturns ticker df ac] }
        match calculate_and_store_returns db1 ticker df ac with
        | .error (e, db') => .error (e, { rs3 with db := db' })
        | .ok db2 => .ok { rs3 with db := db2 }

/-- The inner loop of `build_database`: `for ticker in self.assets[asset_class]`. -/
def processTickers (p : Provider) (start end_ : Nat) (ac : String) :
    List String → RunState → Except (PyErr × RunState) RunState
  | [], rs => .ok rs
  | t :: ts, rs =>
    match processTicker p start end_ ac t rs with
    | .error ers => .error ers
    | .ok rs' => processTickers p start end_ ac ts rs'

/-- The outer loop of `build_database`: `for asset_class in self.assets.keys()`
(Python dicts iterate in insertion order, so this is the catalog order). -/
def buildLoop (p : Provider) (start end_ : Nat) :
    List (String × List String) → RunState → Except (PyErr × RunState) RunState
  | [], rs => .ok rs
  | (ac, ts) :: rest, rs =>
    match processTickers p start end_ ac ts rs with
    | .error ers => .error ers
    | .ok rs' => buildLoop p start end_ rest rs'

/-- `build_database` (source lines 201-217), over the instance's asset
catalog `assets` and starting from connection state `rs`. -/
def build_database (p : Provider) (assets : List (String × List String))
    (start end_ : Nat) (rs : RunState) : Except (PyErr × RunState) RunState :=
  buildLoop p start end_ assets rs

/-- The asset catalog hard-coded in `__init__` (source lines 28-36). -/
def defaultAssets : List (String × List String) :=
  [("equities", ["AAPL", "MSFT", "GOOGL"]),
   ("equity ETFs", ["SPY", "QQQ", "IWM", "VTI"]),
   ("bonds", ["TLT", "IEF", "TIP", "SHY", "HYG", "LQD",
              "IGLT.L", "SDEU.L", "JGBZX"]),
   ("commodities", ["GLD", "SLV", "USO", "DBA", "PDBC"]),
   ("currencies", ["UUP", "FXE", "FXY", "FXA"]),
   ("volatility", ["^VIX"])]

/-- The catalog flattened to `(asset_class, ticker)` pairs in iteration
order. -/
def catalogPairs (assets : List (String × List String)) :
    List (String × String) :=
  assets.flatMap fun e => e.2.map fun t => (e.1, t)

/-- What `bindValue` yields on a bindable value (arbitrary on `pyObj`, where
binding raises instead). -/
def bindTotal : PyValue → SQLValue
  | .pyNone => .null
  | .pyInt i => .int i
  | .pyFloat q => .real q
  | .pyStr s => .text s
  | .pyDate d => .text (dateText d)
  | .pyObj _ => .null

/-- The `price_data` row a successful insert stores for observation `o` of
`ticker`/`ac` (see `bindPriceRow_eq_renderPrice`). -/
def renderPrice (ticker ac : String) (o : Obs) : PriceRow :=
  ⟨.text ticker, .text (dateText o.date), bindTotal o.open_, bindTotal o.high,
    bindTotal o.low, bindTotal o.close, bindTotal o.volume,
    bindTotal o.adjClose, .text ac⟩

/-- The stored form of the rows of one `store_price_data` call. -/
def renderPrices (ticker ac : String) (df : List Obs) : List PriceRow :=
  df.map (renderPrice ticker ac)

/-- The storage class of a possibly-missing float (sqlite stores `NaN` as
`NULL`). -/
def sqlOfOpt : Option ℚ → SQLValue
  | some q => .real q
  | none => .null

/-- The `returns_data` row a successful insert stores for one returns
parameter tuple. -/
def renderReturn (ticker ac : String)
    (tu : Nat × Option ℚ × Option ℚ × Option ℚ) : ReturnRow :=
  ⟨.text ticker, .text (dateText tu.1), sqlOfOpt tu.2.1, sqlOfOpt tu.2.2.1,
    sqlOfOpt tu.2.2.2, .text ac⟩

/-- The adjusted-close column of a DataFrame whose `Adj Close` cells are all
numeric (see `mapM_toRat_eq`). -/
def adjRats (df : List Obs) : List ℚ :=
  df.map fun o => (toRat o.adjClose).getD 0

/-- The stored form of the rows of one `calculate_and_store_returns` call on
a numeric DataFrame. -/
def renderReturns (ticker ac : String) (df : List Obs) : List ReturnRow :=
  (returnTuples df (pct_change 1 (adjRats df)) (pct_change 5 (adjRats df))
      (pct_change 21 (adjRats df))).map (renderReturn ticker ac)

/-- All six OHLCV cells of the observation are values the sqlite driver can
bind. -/
def bindableObs (o : Obs) : Bool :=
  o.open_.bindable && o.high.bindable && o.low.bindable && o.close.bindable &&
    o.volume.bindable && o.adjClose.bindable

/-- The observation is fully bindable and its adjusted close is numeric —
what actually comes back from a well-behaved market-data provider (spec §6:
observations are numbers). -/
def cleanObs (o : Obs) : Bool :=
  bindableObs o && o.adjClose.numeric

/-- Every observation of the DataFrame is clean. -/
def cleanDf (df : List Obs) : Bool :=
  df.all cleanObs

/-- Every DataFrame the provider can return for this date range is clean. -/
def cleanProvider (p : Provider) (start end_ : Nat) : Prop :=
  ∀ t df, p t start end_ = .ok df → cleanDf df = true

/-- Spec-side description (§4.3 `run`) of the calls made for one catalog
entry: call `fetch_history`; if the result is absent, nothing more (no
write); otherwise `upsert_prices` with the observations and `upsert_returns`
for the same observations. -/
def specTickerEvents (p : Provider) (start end_ : Nat) (ac t : String) :
    List Event :=
  match download_data p t start end_ with
  | .error _ => []
  | .ok none => [.fetch t none]
  | .ok (some df) =>
      [.fetch t (some df), .storePrices t df ac, .storeReturns t df ac]

/-- Spec-side description of a whole run: the per-entry call pattern, in
catalog order. -/
def specRunEvents (p : Provider) (start end_ : Nat)
    (assets : List (String × List String)) : List Event :=
  (catalogPairs assets).flatMap fun pr => specTickerEvents p start end_ pr.1 pr.2

/-- Number of rows the `price_data` table holds for `ticker`. -/
def countTicker (ticker : String) (l : List PriceRow) : Nat :=
  (l.filter fun r => (r.ticker = SQLValue.text ticker : Bool)).length

/-- Binding of every parameter tuple of one `store_price_data` call: the
bound rows if all bind, or the first binding error. -/
def bindRows (ticker ac : String) : List Obs → Except PyErr (List PriceRow)
  | [] => .ok []
  | o :: rest => do
      let r ← bindPriceRow ticker ac o
      let rs ← bindRows ticker ac rest
      pure (r :: rs)

/-- A well-formed observation (all cells float/int), used to instantiate
theorems at concrete inputs. -/
def obsA : Obs := ⟨1, .pyFloat 2, .pyFloat 3, .pyFloat 1, .pyFloat 2,
  .pyInt 50, .pyFloat 2⟩

/-- A second well-formed observation with a different date. -/
def obsB : Obs := ⟨2, .pyFloat 3, .pyFloat 4, .pyFloat 2, .pyFloat 3,
  .pyInt 60, .pyFloat 4⟩

/-- An observation whose `Open` cell is an object the sqlite driver cannot
bind. -/
def obsBad : Obs := ⟨1, .pyObj 0, .pyFloat 1, .pyFloat 1, .pyFloat 1,
  .pyInt 1, .pyFloat 1⟩

/-- An observation whose `Open` cell is a non-numeric string (the driver
binds it as TEXT and SQLite stores it as-is in the REAL-affinity column). -/
def obsText : Obs := ⟨1, .pyStr "not a number", .pyFloat 2, .pyFloat 1,
  .pyFloat 2, .pyInt 100, .pyFloat 2⟩

/-- The connection state after the two (successful) write calls for one
ticker: prices upserted and committed, then returns upserted and committed
(see `processTicker_some`). -/
def cleanStepDB (db : DB) (t ac : String) (df : List Obs) : DB :=
  { prices := (db.pendingPrices ++ renderPrices t ac df).foldl upsertPriceRow db.prices
    returns := (renderReturns t ac df).foldl upsertReturnRow
      (db.pendingReturns.foldl upsertReturnRow db.returns)
    pendingPrices := []
    pendingReturns := [] }

/-! ## Injectivity of the stored date text -/

lemma fin_digit_char_inj : ∀ a b : Fin 10,
    Char.ofNat ((a : ℕ) + 48) = Char.ofNat ((b : ℕ) + 48) → a = b := by
  decide

lemma digit_char_inj {x y : ℕ} (hx : x < 10) (hy : y < 10)
    (h : Char.ofNat (x + 48) = Char.ofNat (y + 48)) : x = y := by
  have := fin_digit_char_inj ⟨x, hx⟩ ⟨y, hy⟩ h
  exact congrArg Fin.val this

lemma map_digit_char_inj : ∀ l1 l2 : List ℕ, (∀ x ∈ l1, x < 10) →
    (∀ x ∈ l2, x < 10) →
    l1.map (fun x => Char.ofNat (x + 48)) = l2.map (fun x => Char.ofNat (x + 48)) →
    l1 = l2
  | [], [], _, _, _ => rfl
  | [], _ :: _, _, _, h => by simp at h
  | _ :: _, [], _, _, h => by simp at h
  | a :: l1, b :: l2, h1, h2, h => by
    simp only [List.map_cons, List.cons.injEq] at h
    have hab : a = b :=
      digit_char_inj (h1 a (by simp)) (h2 b (by simp)) h.1
    have htl : l1 = l2 :=
      map_digit_char_inj l1 l2 (fun x hx => h1 x (by simp [hx]))
        (fun x hx => h2 x (by simp [hx])) h.2
    rw [hab, htl]

lemma dateText_injective : Function.Injective dateText := by
  intro d1 d2 h
  have hl : digitChars d1 = digitChars d2 := by
    have := congrArg String.data h
    simpa [dateText] using this
  unfold digitChars at hl
  have hrev :=
    map_digit_char_inj _ _
      (fun x hx => Nat.digits_lt_base (by norm_num) (List.mem_reverse.mp hx))
      (fun x hx => Nat.digits_lt_base (by norm_num) (List.mem_reverse.mp hx)) hl
  have hd : Nat.digits 10 d1 = Nat.digits 10 d2 := List.reverse_injective hrev
  calc d1 = Nat.ofDigits 10 (Nat.digits 10 d1) := (Nat.ofDigits_digits 10 d1).symm
    _ = Nat.ofDigits 10 (Nat.digits 10 d2) := by rw [hd]
    _ = d2 := Nat.ofDigits_digits 10 d2

/-! ## Binding lemmas -/

lemma bindValue_bindable {v : PyValue} (h : v.bindable = true) :
    bindValue v = .ok (bindTotal v) := by
  cases v <;> simp_all [PyValue.bindable, bindValue, bindTotal]

lemma bindPriceRow_eq_renderPrice {t ac : String} {o : Obs}
    (h : bindableObs o = true) :
    bindPriceRow t ac o = .ok (renderPrice t ac o) := by
  simp only [bindableObs, Bool.and_eq_true] at h
  obtain ⟨⟨⟨⟨⟨h1, h2⟩, h3⟩, h4⟩, h5⟩, h6⟩ := h
  have est : ∀ s : String, bindValue (.pyStr s) = .ok (.text s) := fun _ => rfl
  have edt : ∀ d : Nat, bindValue (.pyDate d) = .ok (.text (dateText d)) :=
    fun _ => rfl
  simp [bindPriceRow, bind, Except.bind, pure, Except.pure, est, edt,
    bindValue_bindable h1, bindValue_bindable h2, bindValue_bindable h3,
    bindValue_bindable h4, bindValue_bindable h5, bindValue_bindable h6,
    renderPrice]

lemma bindReturnRow_ok (t ac : String) (d : Nat) (r1 r5 r21 : Option ℚ) :
    bindReturnRow t ac d r1 r5 r21 = .ok (renderReturn t ac (d, r1, r5, r21)) := by
  cases r1 <;> cases r5 <;> cases r21 <;>
    simp [bindReturnRow, bindValue, optFloat, renderReturn, sqlOfOpt, bind,
      Except.bind, pure, Except.pure]

/-! ## Store-layer lemmas -/

lemma executemanyPrices_cons_ok {t ac : String} {o : Obs} {r : PriceRow}
    (rest : List Obs) (st : DB) (hb : bindPriceRow t ac o = .ok r) :
    executemanyPrices st t ac (o :: rest) =
      executemanyPrices { st with pendingPrices := st.pendingPrices ++ [r] }
        t ac rest := by
  rw [executemanyPrices, hb]

lemma executemanyPrices_cons_error {t ac : String} {o : Obs} {e : PyErr}
    (rest : List Obs) (st : DB) (hb : bindPriceRow t ac o = .error e) :
    executemanyPrices st t ac (o :: rest) = .error (e, st) := by
  rw [executemanyPrices, hb]

lemma executemanyPrices_clean {t ac : String} : ∀ (df : List Obs) (st : DB),
    (∀ o ∈ df, bindableObs o = true) →
    executemanyPrices st t ac df =
      .ok { st with pendingPrices := st.pendingPrices ++ renderPrices t ac df }
  | [], st, _ => by simp [executemanyPrices, renderPrices]
  | o :: rest, st, h => by
    rw [executemanyPrices_cons_ok rest st
        (bindPriceRow_eq_renderPrice (h o (by simp))),
      executemanyPrices_clean rest _ (fun x hx => h x (by simp [hx]))]
    simp [renderPrices]

lemma store_price_data_clean {t ac : String} {df : List Obs} {st : DB}
    (h : ∀ o ∈ df, bindableObs o = true) :
    store_price_data st t df ac =
      .ok (commitDB { st with pendingPrices := st.pendingPrices ++ renderPrices t ac df }) := by
  rw [store_price_data, executemanyPrices_clean df st h]

lemma executemanyPrices_error {t ac : String} : ∀ (df : List Obs) (st : DB)
    (e : PyErr) (st' : DB),
    executemanyPrices st t ac df = .error (e, st') →
    st'.prices = st.prices ∧ st'.returns = st.returns ∧
      st'.pendingReturns = st.pendingReturns
  | [], st, e, st', h => by simp [executemanyPrices] at h
  | o :: rest, st, e, st', h => by
    cases hb : bindPriceRow t ac o with
    | error e1 =>
      rw [executemanyPrices_cons_error rest st hb] at h
      have hpair : (e1, st) = (e, st') := Except.error.inj h
      have h2 : st = st' := congrArg Prod.snd hpair
      exact ⟨congrArg DB.prices h2.symm, congrArg DB.returns h2.symm,
        congrArg DB.pendingReturns h2.symm⟩
    | ok r =>
      rw [executemanyPrices_cons_ok rest st hb] at h
      have hrec := executemanyPrices_error rest _ e st' h
      simpa using hrec

lemma executemanyPrices_ok_bindRows {t ac : String} : ∀ (df : List Obs)
    (st : DB) (st' : DB), executemanyPrices st t ac df = .ok st' →
    ∃ rows, bindRows t ac df = Except.ok rows ∧
      st' = { st with pendingPrices := st.pendingPrices ++ rows }
  | [], st, st', h => by
    refine ⟨[], rfl, ?_⟩
    rw [executemanyPrices] at h
    simp [← Except.ok.inj h]
  | o :: rest, st, st', h => by
    cases hb : bindPriceRow t ac o with
    | error e1 =>
      rw [executemanyPrices_cons_error rest st hb] at h
      exact absurd h (by simp)
    | ok r =>
      rw [executemanyPrices_cons_ok rest st hb] at h
      obtain ⟨rows, hm, hst⟩ := executemanyPrices_ok_bindRows rest _ st' h
      refine ⟨r :: rows, ?_, ?_⟩
      · rw [bindRows, hb, hm]; rfl
      · simp [hst]

lemma executemanyReturns_cons_ok {t ac : String} {d : Nat}
    {r1 r5 r21 : Option ℚ} {r : ReturnRow}
    (rest : List (Nat × Option ℚ × Option ℚ × Option ℚ)) (st : DB)
    (hb : bindReturnRow t ac d r1 r5 r21 = .ok r) :
    executemanyReturns st t ac ((d, r1, r5, r21) :: rest) =
      executemanyReturns { st with pendingReturns := st.pendingReturns ++ [r] }
        t ac rest := by
  rw [executemanyReturns, hb]

lemma executemanyReturns_ok {t ac : String} :
    ∀ (tus : List (Nat × Option ℚ × Option ℚ × Option ℚ)) (st : DB),
    executemanyReturns st t ac tus =
      .ok { st with pendingReturns := st.pendingReturns ++ tus.map (renderReturn t ac) }
  | [], st => by simp [executemanyReturns]
  | (d, r1, r5, r21) :: rest, st => by
    rw [executemanyReturns_cons_ok rest st (bindReturnRow_ok t ac d r1 r5 r21),
      executemanyReturns_ok rest]
    simp

lemma adjCloseCol_numeric : ∀ df : List Obs,
    (∀ o ∈ df, PyValue.numeric o.adjClose = true) →
    adjCloseCol df = some (adjRats df)
  | [], _ => rfl
  | o :: rest, h => by
    have ho : toRat o.adjClose = some ((toRat o.adjClose).getD 0) := by
      have := h o (by simp)
      cases hv : o.adjClose <;> simp_all [PyValue.numeric, toRat]
    rw [adjCloseCol, ho, adjCloseCol_numeric rest (fun x hx => h x (by simp [hx]))]
    simp [adjRats, Option.bind]

lemma cleanDf_numeric {df : List Obs} (h : cleanDf df = true) :
    ∀ o ∈ df, PyValue.numeric o.adjClose = true := by
  intro o ho
  have := (List.all_eq_true.mp h) o ho
  simp only [cleanObs, Bool.and_eq_true] at this
  exact this.2

lemma cleanDf_bindable {df : List Obs} (h : cleanDf df = true) :
    ∀ o ∈ df, bindableObs o = true := by
  intro o ho
  have := (List.all_eq_true.mp h) o ho
  simp only [cleanObs, Bool.and_eq_true] at this
  exact this.1

lemma calculate_reduce_none {t ac : String} {df : List Obs} {st : DB}
    (hc : adjCloseCol df = none) :
    calculate_and_store_returns st t df ac = .error (.typeError, st) := by
  rw [calculate_and_store_returns, hc]

lemma calculate_reduce_ok {t ac : String} {df : List Obs} {st st2 : DB}
    {xs : List ℚ} (hc : adjCloseCol df = some xs)
    (he : executemanyReturns st t ac
        (returnTuples df (pct_change 1 xs) (pct_change 5 xs)
          (pct_change 21 xs)) = .ok st2) :
    calculate_and_store_returns st t df ac = .ok (commitDB st2) := by
  simp only [calculate_and_store_returns, hc, he]

lemma calculate_and_store_returns_clean {t ac : String} {df : List Obs}
    {st : DB} (h : cleanDf df = true) :
    calculate_and_store_returns st t df ac =
      .ok (commitDB { st with pendingReturns := st.pendingReturns ++ renderReturns t ac df }) := by
  exact calculate_reduce_ok (adjCloseCol_numeric df (cleanDf_numeric h))
    (executemanyReturns_ok _ st)

lemma calculate_and_store_returns_error {t ac : String} {df : List Obs}
    {st : DB} {e : PyErr} {st' : DB}
    (h : calculate_and_store_returns st t df ac = .error (e, st')) :
    st' = st := by
  cases hc : adjCloseCol df with
  | none =>
    rw [calculate_reduce_none hc] at h
    have hpair : (PyErr.typeError, st) = (e, st') := Except.error.inj h
    exact (congrArg Prod.snd hpair).symm
  | some xs =>
    rw [calculate_reduce_ok hc (executemanyReturns_ok _ st)] at h
    exact absurd h (by simp)

/-! ## Upsert canonical form -/

lemma foldl_upsertPriceRow_nodup : ∀ (rs : List PriceRow) (tb : List PriceRow),
    (rs.map priceKey).Nodup →
    rs.foldl upsertPriceRow tb =
      tb.filter (fun x => decide (priceKey x ∉ rs.map priceKey)) ++ rs
  | [], tb, _ => by simp
  | r :: rs, tb, h => by
    simp only [List.map_cons, List.nodup_cons] at h
    obtain ⟨hk, hnd⟩ := h
    rw [List.foldl_cons, foldl_upsertPriceRow_nodup rs _ hnd]
    unfold upsertPriceRow
    rw [List.filter_append, List.filter_filter]
    have hr : List.filter (fun x => decide (priceKey x ∉ rs.map priceKey)) [r] = [r] := by
      have hk2 : ∀ x ∈ rs, ¬priceKey x = priceKey r := fun x hx he =>
        hk (he ▸ List.mem_map_of_mem priceKey hx)
      simpa using hk2
    have hpred : ∀ x : PriceRow,
        (decide (priceKey x ∉ List.map priceKey rs) &&
            !(priceKey x = priceKey r : Bool)) =
          decide (priceKey x ∉ priceKey r :: List.map priceKey rs) := by
      intro x
      by_cases h1 : priceKey x = priceKey r <;>
        by_cases h2 : priceKey x ∈ rs.map priceKey <;> simp [h1, h2]
    rw [hr]
    simp only [hpred, List.map_cons]
    simp

lemma renderPrice_key (t ac : String) (o : Obs) :
    priceKey (renderPrice t ac o) =
      (SQLValue.text t, SQLValue.text (dateText o.date)) := rfl

lemma renderPrices_keys_nodup {t ac : String} {df : List Obs}
    (h : (df.map Obs.date).Nodup) :
    ((renderPrices t ac df).map priceKey).Nodup := by
  have hmap : (renderPrices t ac df).map priceKey =
      (df.map Obs.date).map
        (fun d => (SQLValue.text t, SQLValue.text (dateText d))) := by
    simp only [renderPrices, List.map_map]
    rfl
  rw [hmap]
  refine h.map ?_
  intro d1 d2 hd
  have : dateText d1 = dateText d2 := by
    have := congrArg Prod.snd hd
    exact SQLValue.text.inj this
  exact dateText_injective this

lemma filter_key_renders {t ac : String} : ∀ (df : List Obs) (o : Obs),
    (df.map Obs.date).Nodup → o ∈ df →
    (renderPrices t ac df).filter
        (fun r => (priceKey r = priceKey (renderPrice t ac o) : Bool)) =
      [renderPrice t ac o]
  | [], o, _, ho => absurd ho (by simp)
  | a :: df, o, h, ho => by
    simp only [List.map_cons, List.nodup_cons] at h
    obtain ⟨ha, hnd⟩ := h
    rcases List.mem_cons.mp ho with rfl | ho'
    · have htail : (renderPrices t ac df).filter
          (fun r => (priceKey r = priceKey (renderPrice t ac o) : Bool)) = [] := by
        refine List.filter_eq_nil_iff.mpr ?_
        intro r hr
        obtain ⟨o', ho', rfl⟩ := List.mem_map.mp hr
        simp only [renderPrice_key, Bool.not_eq_true, decide_eq_false_iff_not]
        intro hkey
        have : o'.date = o.date :=
          dateText_injective (SQLValue.text.inj (congrArg Prod.snd hkey))
        exact ha (this ▸ List.mem_map_of_mem Obs.date ho')
      simp only [renderPrices, List.map_cons, List.filter_cons]
      rw [if_pos (by decide : decide True = true)]
      have h2 := htail
      simp only [renderPrices] at h2
      rw [h2]
    · have hhead : (priceKey (renderPrice t ac a) =
          priceKey (renderPrice t ac o) : Bool) = false := by
        simp only [renderPrice_key, decide_eq_false_iff_not]
        intro hkey
        have : a.date = o.date :=
          dateText_injective (SQLValue.text.inj (congrArg Prod.snd hkey))
        exact ha (this ▸ List.mem_map_of_mem Obs.date ho')
      simp only [renderPrices, List.map_cons, List.filter_cons, hhead]
      exact filter_key_renders df o hnd ho'

/-! ## Download and pipeline-loop lemmas -/

lemma download_data_fault_vr {p : Provider} {t : String} {s e : Nat}
    (hse : ¬e ≤ s) (hp : p t s e = .raisesValueError) :
    download_data p t s e = .ok none := by
  rw [download_data, if_neg hse, hp]

lemma download_data_fault_other {p : Provider} {t : String} {s e : Nat}
    (hse : ¬e ≤ s) (hp : p t s e = .raisesOther) :
    download_data p t s e = .ok none := by
  rw [download_data, if_neg hse, hp]

lemma download_data_provider_ok {p : Provider} {t : String} {s e : Nat}
    {df : List Obs} (hse : ¬e ≤ s) (hp : p t s e = .ok df) :
    download_data p t s e =
      if df.isEmpty then .ok none else .ok (some df) := by
  rw [download_data, if_neg hse, hp]

lemma download_data_cases {p : Provider} {t : String} {s e : Nat}
    (hse : s < e) :
    download_data p t s e = .ok none ∨
      ∃ df, download_data p t s e = .ok (some df) ∧ p t s e = .ok df := by
  have hse' : ¬e ≤ s := by omega
  cases hp : p t s e with
  | raisesValueError => exact Or.inl (download_data_fault_vr hse' hp)
  | raisesOther => exact Or.inl (download_data_fault_other hse' hp)
  | ok df =>
    by_cases hemp : df.isEmpty
    · exact Or.inl (by rw [download_data_provider_ok hse' hp, if_pos hemp])
    · exact Or.inr ⟨df,
        by rw [download_data_provider_ok hse' hp, if_neg hemp], rfl⟩

lemma download_data_ok_some {p : Provider} {t : String} {s e : Nat}
    {df : List Obs} (h : download_data p t s e = .ok (some df)) :
    p t s e = .ok df ∧ df.isEmpty = false := by
  by_cases hse : e ≤ s
  · rw [download_data, if_pos hse] at h; exact absurd h (by simp)
  · cases hp : p t s e with
    | raisesValueError =>
      rw [download_data_fault_vr hse hp] at h
      exact absurd (Except.ok.inj h) (by simp)
    | raisesOther =>
      rw [download_data_fault_other hse hp] at h
      exact absurd (Except.ok.inj h) (by simp)
    | ok df' =>
      rw [download_data_provider_ok hse hp] at h
      by_cases hemp : df'.isEmpty
      · rw [if_pos hemp] at h; exact absurd (Except.ok.inj h) (by simp)
      · rw [if_neg hemp] at h
        have : df' = df := Option.some.inj (Except.ok.inj h)
        subst this
        exact ⟨rfl, by simpa using hemp⟩

lemma specTickerEvents_none {p : Provider} {t : String} {s e : Nat}
    (ac : String) (hd : download_data p t s e = .ok none) :
    specTickerEvents p s e ac t = [.fetch t none] := by
  rw [specTickerEvents, hd]

lemma specTickerEvents_some {p : Provider} {t : String} {s e : Nat}
    {df : List Obs} (ac : String) (hd : download_data p t s e = .ok (some df)) :
    specTickerEvents p s e ac t =
      [.fetch t (some df), .storePrices t df ac, .storeReturns t df ac] := by
  rw [specTickerEvents, hd]

lemma processTicker_none {p : Provider} {t : String} {s e : Nat}
    (ac : String) (rs : RunState) (hd : download_data p t s e = .ok none) :
    processTicker p s e ac t rs = .ok ⟨rs.db, rs.log ++ [.fetch t none]⟩ := by
  rw [processTicker, hd]

lemma processTicker_some {p : Provider} {t : String} {s e : Nat}
    {df : List Obs} (ac : String) (rs : RunState)
    (hd : download_data p t s e = .ok (some df)) (hc : cleanDf df = true) :
    processTicker p s e ac t rs =
      .ok ⟨cleanStepDB rs.db t ac df,
        rs.log ++ [.fetch t (some df), .storePrices t df ac,
          .storeReturns t df ac]⟩ := by
  simp only [processTicker, hd, store_price_data_clean (cleanDf_bindable hc),
    calculate_and_store_returns_clean hc]
  simp [cleanStepDB, commitDB, List.append_assoc]

lemma processTickers_cons_ok {p : Provider} {s e : Nat} {ac t : String}
    {rs rs1 : RunState} (ts : List String)
    (h : processTicker p s e ac t rs = .ok rs1) :
    processTickers p s e ac (t :: ts) rs = processTickers p s e ac ts rs1 := by
  rw [processTickers, h]

lemma processTickers_cons_error {p : Provider} {s e : Nat} {ac t : String}
    {rs : RunState} {ers : PyErr × RunState} (ts : List String)
    (h : processTicker p s e ac t rs = .error ers) :
    processTickers p s e ac (t :: ts) rs = .error ers := by
  rw [processTickers, h]

lemma processTickers_clean {p : Provider} {s e : Nat} (hse : s < e)
    (hp : cleanProvider p s e) (ac : String) : ∀ (ts : List String)
    (rs : RunState), ∃ db',
    processTickers p s e ac ts rs =
      .ok ⟨db', rs.log ++ ts.flatMap fun t => specTickerEvents p s e ac t⟩
  | [], rs => ⟨rs.db, by simp [processTickers]⟩
  | t :: ts, rs => by
    rcases download_data_cases (p := p) (t := t) hse with hd | ⟨df, hd, hpc⟩
    · obtain ⟨db', ih⟩ := processTickers_clean hse hp ac ts
        ⟨rs.db, rs.log ++ [.fetch t none]⟩
      refine ⟨db', ?_⟩
      rw [processTickers_cons_ok ts (processTicker_none ac rs hd), ih]
      simp [specTickerEvents_none ac hd]
    · have hc : cleanDf df = true := hp t df hpc
      obtain ⟨db', ih⟩ := processTickers_clean hse hp ac ts
        ⟨cleanStepDB rs.db t ac df,
          rs.log ++ [.fetch t (some df), .storePrices t df ac,
            .storeReturns t df ac]⟩
      refine ⟨db', ?_⟩
      rw [processTickers_cons_ok ts (processTicker_some ac rs hd hc), ih]
      simp [specTickerEvents_some ac hd]

lemma buildLoop_cons_ok {p : Provider} {s e : Nat} {ac : String}
    {ts : List String} {rs rs1 : RunState}
    (rest : List (String × List String))
    (h : processTickers p s e ac ts rs = .ok rs1) :
    buildLoop p s e ((ac, ts) :: rest) rs = buildLoop p s e rest rs1 := by
  rw [buildLoop, h]

lemma buildLoop_cons_error {p : Provider} {s e : Nat} {ac : String}
    {ts : List String} {rs : RunState} {ers : PyErr × RunState}
    (rest : List (String × List String))
    (h : processTickers p s e ac ts rs = .error ers) :
    buildLoop p s e ((ac, ts) :: rest) rs = .error ers := by
  rw [buildLoop, h]

lemma specRunEvents_cons {p : Provider} {s e : Nat} {ac : String}
    {ts : List String} {rest : List (String × List String)} :
    specRunEvents p s e ((ac, ts) :: rest) =
      (ts.flatMap fun t => specTickerEvents p s e ac t) ++
        specRunEvents p s e rest := by
  simp only [specRunEvents, catalogPairs, List.flatMap_cons, List.flatMap_append,
    List.flatMap_map]

lemma buildLoop_clean {p : Provider} {s e : Nat} (hse : s < e)
    (hp : cleanProvider p s e) : ∀ (assets : List (String × List String))
    (rs : RunState), ∃ db',
    buildLoop p s e assets rs = .ok ⟨db', rs.log ++ specRunEvents p s e assets⟩
  | [], rs => ⟨rs.db, by simp [buildLoop, specRunEvents, catalogPairs]⟩
  | (ac, ts) :: rest, rs => by
    obtain ⟨db1, h1⟩ := processTickers_clean hse hp ac ts rs
    obtain ⟨db', ih⟩ := buildLoop_clean hse hp rest
      ⟨db1, rs.log ++ ts.flatMap fun t => specTickerEvents p s e ac t⟩
    refine ⟨db', ?_⟩
    rw [buildLoop_cons_ok rest h1, ih]
    simp [specRunEvents_cons, List.append_assoc]

lemma processTickers_append_ok {p : Provider} {s e : Nat} {ac : String} :
    ∀ (ts1 : List String) {ts2 : List String} {rs rsMid : RunState},
    processTickers p s e ac ts1 rs = .ok rsMid →
    processTickers p s e ac (ts1 ++ ts2) rs = processTickers p s e ac ts2 rsMid
  | [], ts2, rs, rsMid, h => by
    rw [processTickers] at h
    rw [List.nil_append, Except.ok.inj h]
  | t :: ts1, ts2, rs, rsMid, h => by
    cases hstep : processTicker p s e ac t rs with
    | error ers =>
      rw [processTickers_cons_error ts1 hstep] at h
      exact absurd h (by simp)
    | ok rs1 =>
      rw [processTickers_cons_ok ts1 hstep] at h
      rw [List.cons_append, processTickers_cons_ok (ts1 ++ ts2) hstep]
      exact processTickers_append_ok ts1 h

lemma buildLoop_append_ok {p : Provider} {s e : Nat} :
    ∀ (l1 : List (String × List String)) {l2 : List (String × List String)}
    {rs rsMid : RunState},
    buildLoop p s e l1 rs = .ok rsMid →
    buildLoop p s e (l1 ++ l2) rs = buildLoop p s e l2 rsMid
  | [], l2, rs, rsMid, h => by
    rw [buildLoop] at h
    rw [List.nil_append, Except.ok.inj h]
  | (ac, ts) :: l1, l2, rs, rsMid, h => by
    cases hstep : processTickers p s e ac ts rs with
    | error ers =>
      rw [buildLoop_cons_error l1 hstep] at h
      exact absurd h (by simp)
    | ok rs1 =>
      rw [buildLoop_cons_ok l1 hstep] at h
      rw [List.cons_append, buildLoop_cons_ok (l1 ++ l2) hstep]
      exact buildLoop_append_ok l1 h

/-! ## Key characterisations of the rendered rows -/

lemma map_range_getD {α β : Type} : ∀ (l : List α) (d : α) (f : α → β),
    (List.range l.length).map (fun i => f (l.getD i d)) = l.map f
  | [], _, _ => rfl
  | a :: l, d, f => by
    rw [List.length_cons, List.range_succ_eq_map]
    simp only [List.map_cons, List.getD_cons_zero, List.map_map]
    have hcomp : ((fun i => f ((a :: l).getD i d)) ∘ Nat.succ) =
        fun i => f (l.getD i d) := by
      funext i
      simp [List.getD_cons_succ]
    rw [hcomp, map_range_getD l d f]

lemma renderPrices_keys (t ac : String) (df : List Obs) :
    (renderPrices t ac df).map priceKey =
      df.map fun o => (SQLValue.text t, SQLValue.text (dateText o.date)) := by
  unfold renderPrices
  rw [List.map_map]
  congr 1

lemma renderReturns_keys (t ac : String) (df : List Obs) :
    (renderReturns t ac df).map returnKey =
      df.map fun o => (SQLValue.text t, SQLValue.text (dateText o.date)) := by
  unfold renderReturns returnTuples
  rw [List.map_map, List.map_map]
  exact map_range_getD df obsDefault
    (fun o => (SQLValue.text t, SQLValue.text (dateText o.date)))

/-! ## `pct_change` and returns-column lemmas -/

lemma pct_change_getD (k : Nat) (xs : List ℚ) {i : Nat} (hi : i < xs.length) :
    (pct_change k xs).getD i none =
      if k ≤ i then some (xs.getD i 0 / xs.getD (i - k) 0 - 1) else none := by
  unfold pct_change
  rw [List.getD_eq_getElem?_getD, List.getElem?_map, List.getElem?_range hi]
  rfl

lemma pct_change_length (k : Nat) (xs : List ℚ) :
    (pct_change k xs).length = xs.length := by
  simp [pct_change]

lemma adjRats_length (df : List Obs) : (adjRats df).length = df.length := by
  simp [adjRats]

lemma renderReturns_col1 (t ac : String) (df : List Obs) :
    (renderReturns t ac df).map ReturnRow.return1d =
      (pct_change 1 (adjRats df)).map sqlOfOpt := by
  unfold renderReturns returnTuples
  rw [List.map_map, List.map_map]
  have hlen : df.length = (pct_change 1 (adjRats df)).length := by
    rw [pct_change_length, adjRats_length]
  rw [hlen]
  exact map_range_getD (pct_change 1 (adjRats df)) none sqlOfOpt

lemma renderReturns_col5 (t ac : String) (df : List Obs) :
    (renderReturns t ac df).map ReturnRow.return5d =
      (pct_change 5 (adjRats df)).map sqlOfOpt := by
  unfold renderReturns returnTuples
  rw [List.map_map, List.map_map]
  have hlen : df.length = (pct_change 5 (adjRats df)).length := by
    rw [pct_change_length, adjRats_length]
  rw [hlen]
  exact map_range_getD (pct_change 5 (adjRats df)) none sqlOfOpt

lemma renderReturns_col21 (t ac : String) (df : List Obs) :
    (renderReturns t ac df).map ReturnRow.return21d =
      (pct_change 21 (adjRats df)).map sqlOfOpt := by
  unfold renderReturns returnTuples
  rw [List.map_map, List.map_map]
  have hlen : df.length = (pct_change 21 (adjRats df)).length := by
    rw [pct_change_length, adjRats_length]
  rw [hlen]
  exact map_range_getD (pct_change 21 (adjRats df)) none sqlOfOpt

lemma adjCloseCol_congr : ∀ (df df' : List Obs),
    df.map Obs.adjClose = df'.map Obs.adjClose →
    adjCloseCol df = adjCloseCol df'
  | [], [], _ => rfl
  | [], _ :: _, h => by simp at h
  | _ :: _, [], h => by simp at h
  | o :: df, o' :: df', h => by
    simp only [List.map_cons, List.cons.injEq] at h
    rw [adjCloseCol, adjCloseCol, h.1, adjCloseCol_congr df df' h.2]

lemma getD_date_map : ∀ (df : List Obs) (i : Nat),
    (df.getD i obsDefault).date = (df.map Obs.date).getD i obsDefault.date
  | [], i => by simp
  | o :: df, 0 => by simp
  | o :: df, i + 1 => by
    simp only [List.getD_cons_succ, List.map_cons]
    exact getD_date_map df i

lemma returnTuples_congr {df df' : List Obs}
    (hd : df.map Obs.date = df'.map Obs.date) :
    ∀ c1 c5 c21, returnTuples df c1 c5 c21 = returnTuples df' c1 c5 c21 := by
  intro c1 c5 c21
  unfold returnTuples
  have hlen : df.length = df'.length := by
    have := congrArg List.length hd
    simpa using this
  rw [hlen]
  refine List.map_congr_left ?_
  intro i _
  rw [getD_date_map df i, getD_date_map df' i, hd]

lemma calculate_congr {df df' : List Obs}
    (hd : df.map Obs.date = df'.map Obs.date)
    (ha : df.map Obs.adjClose = df'.map Obs.adjClose)
    (st : DB) (t ac : String) :
    calculate_and_store_returns st t df ac =
      calculate_and_store_returns st t df' ac := by
  have hc : adjCloseCol df = adjCloseCol df' := adjCloseCol_congr df df' ha
  have ht := returnTuples_congr hd
  simp only [calculate_and_store_returns, hc, ht]

/-! ## Binding inversion and counting lemmas -/

lemma except_bind_ok {α β : Type} {m : Except PyErr α} {k : α → Except PyErr β}
    {r : β} (h : (m >>= k) = .ok r) : ∃ v, m = .ok v ∧ k v = .ok r := by
  cases m with
  | error e => exact absurd h (by simp [bind, Except.bind])
  | ok v => exact ⟨v, rfl, by simpa [bind, Except.bind] using h⟩

lemma bindValue_ok_bindable {v : PyValue} {w : SQLValue}
    (h : bindValue v = .ok w) : v.bindable = true := by
  cases v <;> simp_all [bindValue, PyValue.bindable]

lemma bindPriceRow_ok_bindable {t ac : String} {o : Obs} {r : PriceRow}
    (h : bindPriceRow t ac o = .ok r) : bindableObs o = true := by
  unfold bindPriceRow at h
  obtain ⟨tv, -, h⟩ := except_bind_ok h
  obtain ⟨dv, -, h⟩ := except_bind_ok h
  obtain ⟨ov, hov, h⟩ := except_bind_ok h
  obtain ⟨hv, hhv, h⟩ := except_bind_ok h
  obtain ⟨lv, hlv, h⟩ := except_bind_ok h
  obtain ⟨cv, hcv, h⟩ := except_bind_ok h
  obtain ⟨vv, hvv, h⟩ := except_bind_ok h
  obtain ⟨av, hav, h⟩ := except_bind_ok h
  simp [bindableObs, bindValue_ok_bindable hov, bindValue_ok_bindable hhv,
    bindValue_ok_bindable hlv, bindValue_ok_bindable hcv,
    bindValue_ok_bindable hvv, bindValue_ok_bindable hav]

lemma executemanyPrices_ok_all_bindable {t ac : String} : ∀ (df : List Obs)
    (st st' : DB), executemanyPrices st t ac df = .ok st' →
    ∀ o ∈ df, bindableObs o = true
  | [], _, _, _ => by simp
  | o :: rest, st, st', h => by
    cases hb : bindPriceRow t ac o with
    | error e1 =>
      rw [executemanyPrices_cons_error rest st hb] at h
      exact absurd h (by simp)
    | ok r =>
      rw [executemanyPrices_cons_ok rest st hb] at h
      intro x hx
      rcases List.mem_cons.mp hx with rfl | hx'
      · exact bindPriceRow_ok_bindable hb
      · exact executemanyPrices_ok_all_bindable rest _ st' h x hx'

lemma store_price_data_of_exec_error {t ac : String} {df : List Obs} {st : DB}
    {es : PyErr × DB} (h : executemanyPrices st t ac df = .error es) :
    store_price_data st t df ac = .error es := by
  rw [store_price_data, h]

lemma store_price_data_ok_exec {t ac : String} {df : List Obs} {st : DB}
    {st' : DB} (h : store_price_data st t df ac = .ok st') :
    ∃ st2, executemanyPrices st t ac df = .ok st2 ∧ st' = commitDB st2 := by
  rw [store_price_data] at h
  cases he : executemanyPrices st t ac df with
  | error es => rw [he] at h; exact absurd h (by simp)
  | ok st2 => rw [he] at h; exact ⟨st2, rfl, (Except.ok.inj h).symm⟩

lemma length_filter_split {α : Type} (p q : α → Bool) : ∀ l : List α,
    (l.filter p).length =
      ((l.filter q).filter p).length +
        ((l.filter fun x => !q x).filter p).length
  | [] => rfl
  | a :: l => by
    by_cases hq : q a <;> by_cases hp : p a <;>
      simp [List.filter_cons, hq, hp, length_filter_split p q l] <;> omega

lemma priceKey_fst_ticker (r : PriceRow) (k : SQLValue × SQLValue)
    (h : priceKey r = k) : r.ticker = k.1 := by
  rw [← h]; rfl

lemma adjCloseCol_some : ∀ (df : List Obs) (xs : List ℚ),
    adjCloseCol df = some xs → adjRats df = xs
  | [], xs, h => by
    simp only [adjCloseCol, Option.some.injEq] at h
    simp [adjRats, ← h]
  | o :: rest, xs, h => by
    rw [adjCloseCol] at h
    cases hq : toRat o.adjClose with
    | none => rw [hq] at h; exact absurd h (by simp)
    | some q =>
      rw [hq] at h
      cases hc : adjCloseCol rest with
      | none => rw [hc] at h; exact absurd h (by simp)
      | some qs =>
        rw [hc] at h
        have hx : q :: qs = xs := by
          have h2 : some (q :: qs) = some xs := by rw [← h]; rfl
          exact Option.some.inj h2
        rw [adjRats, ← hx]
        simp only [List.map_cons, hq, Option.getD_some]
        have hrec := adjCloseCol_some rest qs hc
        rw [adjRats] at hrec
        rw [hrec]

/-! ## Claim theorems -/

/-- C4: for every pair of dates with `end <= start`, `download_data`
(the spec's `fetch_history`) raises the invalid-range `ValueError` (the
spec's `InvalidRangeError`) immediately — the result is the same whatever
the provider does, i.e. before any provider call — and `download_data`
takes no connection state, so no storage is touched; for `end > start` the
range check raises nothing: the call always returns an `ok` outcome. -/
theorem c4_invalid_range (p p' : Provider) (t : String) (s e : Nat) :
    (e ≤ s → download_data p t s e = .error .valueError ∧
      download_data p t s e = download_data p' t s e) ∧
    (s < e → ∃ r, download_data p t s e = .ok r) := by
  constructor
  · intro h
    refine ⟨by rw [download_data, if_pos h], ?_⟩
    rw [download_data, if_pos h, download_data, if_pos h]
  · intro h
    rcases download_data_cases (p := p) (t := t) h with hd | ⟨df, hd, -⟩
    · exact ⟨none, hd⟩
    · exact ⟨some df, hd⟩

theorem c4_invalid_range_witness :
    (download_data (fun _ _ _ => .raisesOther) "AAPL" 5 5 =
      .error .valueError) ∧
    ∃ r, download_data (fun _ _ _ => .raisesOther) "AAPL" 3 5 = .ok r :=
  ⟨((c4_invalid_range (fun _ _ _ => .raisesOther)
      (fun _ _ _ => .raisesOther) "AAPL" 5 5).1 (by decide)).1,
    (c4_invalid_range (fun _ _ _ => .raisesOther)
      (fun _ _ _ => .raisesOther) "AAPL" 3 5).2 (by decide)⟩

/-- C3: for a valid range, every provider fault (raised `ValueError` for an
unrecognised identifier, any other raised fault) and the empty result are
all mapped by `download_data` to the absent outcome `.ok none`; the call
never returns an error outcome (no provider-internal fault propagates); and
on the absent outcome the loop performs no write and continues with the next
identifier. -/
theorem c3_faults_absorbed (p : Provider) (t : String) (s e : Nat)
    (ac : String) (ts : List String) (rs : RunState) (hse : s < e) :
    (p t s e = .raisesValueError → download_data p t s e = .ok none) ∧
    (p t s e = .raisesOther → download_data p t s e = .ok none) ∧
    (p t s e = .ok [] → download_data p t s e = .ok none) ∧
    (∃ r, download_data p t s e = .ok r) ∧
    (download_data p t s e = .ok none →
      processTickers p s e ac (t :: ts) rs =
        processTickers p s e ac ts ⟨rs.db, rs.log ++ [.fetch t none]⟩) := by
  have hse' : ¬e ≤ s := by omega
  refine ⟨fun hp => download_data_fault_vr hse' hp,
    fun hp => download_data_fault_other hse' hp,
    fun hp => ?_, ?_, fun hd => ?_⟩
  · rw [download_data_provider_ok hse' hp]
    rfl
  · rcases download_data_cases (p := p) (t := t) hse with hd | ⟨df, hd, -⟩
    · exact ⟨none, hd⟩
    · exact ⟨some df, hd⟩
  · exact processTickers_cons_ok ts (processTicker_none ac rs hd)

theorem c3_faults_absorbed_witness :
    (download_data (fun _ _ _ => .raisesValueError) "ZZZ" 0 1 = .ok none) ∧
    (processTickers (fun _ _ _ => .raisesValueError) 0 1 "equities"
        ["ZZZ"] ⟨emptyDB, []⟩ =
      processTickers (fun _ _ _ => .raisesValueError) 0 1 "equities"
        [] ⟨emptyDB, [] ++ [.fetch "ZZZ" none]⟩) := by
  have h := c3_faults_absorbed (fun _ _ _ => .raisesValueError) "ZZZ" 0 1
    "equities" [] ⟨emptyDB, []⟩ (by decide)
  exact ⟨h.1 rfl, h.2.2.2.2 (h.1 rfl)⟩

/-- C2: on an ordered observation sequence whose adjusted-close column is
the numeric list `xs`, for each horizon `k ∈ {1, 5, 21}` the `pct_change`
column computed by `calculate_and_store_returns` is `NaN` (null) at the
first `k` indices and equals `(adj[i] - adj[i-k]) / adj[i-k]` at every
index `i ≥ k` (whenever that quotient is meaningful, i.e. the denominator
is non-zero); the rows the call stores carry exactly those three columns;
and the computation reads only the date and adjusted-close columns — two
DataFrames agreeing on those two columns (whatever their raw close, open,
high, low or volume cells) produce identical calls. -/
theorem c2_returns_formula (t ac : String) (df : List Obs) (xs : List ℚ)
    (hxs : adjCloseCol df = some xs) :
    (∀ k : Nat, k = 1 ∨ k = 5 ∨ k = 21 → ∀ i : Nat, i < xs.length →
      ((i < k → (pct_change k xs).getD i none = none) ∧
       (k ≤ i → xs.getD (i - k) 0 ≠ 0 →
         (pct_change k xs).getD i none =
           some ((xs.getD i 0 - xs.getD (i - k) 0) / xs.getD (i - k) 0)))) ∧
    ((renderReturns t ac df).map ReturnRow.return1d =
        (pct_change 1 xs).map sqlOfOpt ∧
      (renderReturns t ac df).map ReturnRow.return5d =
        (pct_change 5 xs).map sqlOfOpt ∧
      (renderReturns t ac df).map ReturnRow.return21d =
        (pct_change 21 xs).map sqlOfOpt) ∧
    (∀ df' : List Obs, df'.map Obs.date = df.map Obs.date →
      df'.map Obs.adjClose = df.map Obs.adjClose → ∀ st : DB,
      calculate_and_store_returns st t df' ac =
        calculate_and_store_returns st t df ac) := by
  have hx : adjRats df = xs := adjCloseCol_some df xs hxs
  refine ⟨?_, ?_, ?_⟩
  · intro k hk i hi
    constructor
    · intro hik
      rw [pct_change_getD k xs hi, if_neg (by omega)]
    · intro hki hnz
      rw [pct_change_getD k xs hi, if_pos hki, div_sub_one hnz]
  · refine ⟨?_, ?_, ?_⟩
    · rw [← hx]; exact renderReturns_col1 t ac df
    · rw [← hx]; exact renderReturns_col5 t ac df
    · rw [← hx]; exact renderReturns_col21 t ac df
  · intro df' hd ha st
    exact calculate_congr hd ha st t ac

theorem c2_returns_formula_witness :
    (pct_change 1 [(100 : ℚ), 101, 102]).getD 0 none = none ∧
    (pct_change 1 [(100 : ℚ), 101, 102]).getD 1 none =
      some ((101 - 100) / 100) := by
  have h := c2_returns_formula "AAA" "equities"
    [⟨0, .pyFloat 1, .pyFloat 1, .pyFloat 1, .pyFloat 1, .pyInt 10, .pyFloat 100⟩,
     ⟨1, .pyFloat 1, .pyFloat 1, .pyFloat 1, .pyFloat 1, .pyInt 10, .pyFloat 101⟩,
     ⟨2, .pyFloat 1, .pyFloat 1, .pyFloat 1, .pyFloat 1, .pyInt 10, .pyFloat 102⟩]
    [(100 : ℚ), 101, 102] rfl
  refine ⟨(h.1 1 (Or.inl rfl) 0 (by decide)).1 (by decide), ?_⟩
  have h2 := (h.1 1 (Or.inl rfl) 1 (by decide)).2 (by decide) (by norm_num)
  simpa using h2

lemma store_price_data_error_exec {t ac : String} {df : List Obs} {st : DB}
    {es : PyErr × DB} (h : store_price_data st t df ac = .error es) :
    executemanyPrices st t ac df = .error es := by
  cases he : executemanyPrices st t ac df with
  | error es' =>
    rw [store_price_data_of_exec_error he] at h
    exact h
  | ok st2 =>
    rw [store_price_data, he] at h
    exact absurd h (by simp)

/-- C6: each single `store_price_data` call is atomic with respect to the
committed tables: if the call raises, the committed `price_data` and
`returns_data` are exactly what they were before the call (the partially
executed statements stay in the uncommitted transaction); if it returns,
starting from a connection with nothing pending, the committed `price_data`
is the previous table with every bound row of the call upserted and the
committed `returns_data` is untouched.  Likewise for
`calculate_and_store_returns` into `returns_data`. -/
theorem c6_upsert_atomic (st : DB) (t ac : String) (df : List Obs) :
    (∀ (e : PyErr) (st' : DB), store_price_data st t df ac = .error (e, st') →
      st'.prices = st.prices ∧ st'.returns = st.returns) ∧
    (st.pendingPrices = [] → st.pendingReturns = [] →
      ∀ st' : DB, store_price_data st t df ac = .ok st' →
      ∃ rows, bindRows t ac df = .ok rows ∧
        st' = ⟨rows.foldl upsertPriceRow st.prices, st.returns, [], []⟩) ∧
    (∀ (e : PyErr) (st' : DB),
      calculate_and_store_returns st t df ac = .error (e, st') →
      st'.prices = st.prices ∧ st'.returns = st.returns) ∧
    (st.pendingPrices = [] → st.pendingReturns = [] →
      ∀ st' : DB, calculate_and_store_returns st t df ac = .ok st' →
      ∃ xs, adjCloseCol df = some xs ∧
        st' = ⟨st.prices,
          ((returnTuples df (pct_change 1 xs) (pct_change 5 xs)
              (pct_change 21 xs)).map (renderReturn t ac)).foldl
            upsertReturnRow st.returns, [], []⟩) := by
  refine ⟨?_, ?_, ?_, ?_⟩
  · intro e st' h
    have he := store_price_data_error_exec h
    have := executemanyPrices_error df st e st' he
    exact ⟨this.1, this.2.1⟩
  · intro hp hr st' h
    obtain ⟨st2, he, hc⟩ := store_price_data_ok_exec h
    obtain ⟨rows, hbr, hst2⟩ := executemanyPrices_ok_bindRows df st st2 he
    refine ⟨rows, hbr, ?_⟩
    rw [hc, hst2]
    simp [commitDB, hp, hr]
  · intro e st' h
    have := calculate_and_store_returns_error h
    rw [this]
    exact ⟨rfl, rfl⟩
  · intro hp hr st' h
    cases hc : adjCloseCol df with
    | none =>
      rw [calculate_reduce_none hc] at h
      exact absurd h (by simp)
    | some xs =>
      rw [calculate_reduce_ok hc (executemanyReturns_ok _ st)] at h
      refine ⟨xs, rfl, ?_⟩
      rw [← Except.ok.inj h]
      simp [commitDB, hp, hr]

theorem c6_upsert_atomic_witness :
    ∃ rows, bindRows "AAA" "equities" [obsA] = .ok rows ∧
      commitDB { emptyDB with
          pendingPrices := [] ++ renderPrices "AAA" "equities" [obsA] } =
        ⟨rows.foldl upsertPriceRow emptyDB.prices, emptyDB.returns, [], []⟩ :=
  (c6_upsert_atomic emptyDB "AAA" "equities" [obsA]).2.1 rfl rfl _
    (store_price_data_clean (by decide))

lemma filter_not_in_renders {t ac : String} (df : List Obs) (A : List PriceRow)
    (o : Obs) (ho : o ∈ df) :
    (A.filter (fun x =>
        decide (priceKey x ∉ (renderPrices t ac df).map priceKey))).filter
      (fun r => (priceKey r = priceKey (renderPrice t ac o) : Bool)) = [] := by
  refine List.filter_eq_nil_iff.mpr ?_
  intro r hr
  have hmem := (List.mem_filter.mp hr).2
  simp only [decide_eq_true_eq] at hmem ⊢
  intro hkey
  exact hmem (hkey ▸ List.mem_map_of_mem priceKey
    (List.mem_map_of_mem (renderPrice t ac) ho))

lemma foldl_upsert_filter_key {t ac : String} (df : List Obs)
    (A : List PriceRow) (hnd : (df.map Obs.date).Nodup) (o : Obs)
    (ho : o ∈ df) :
    ((renderPrices t ac df).foldl upsertPriceRow A).filter
        (fun r => (priceKey r = priceKey (renderPrice t ac o) : Bool)) =
      [renderPrice t ac o] := by
  have hknd := @renderPrices_keys_nodup t ac df hnd
  rw [foldl_upsertPriceRow_nodup _ A hknd, List.filter_append,
    filter_not_in_renders df A o ho, List.nil_append]
  exact filter_key_renders df o hnd ho

lemma renders_filter_not_self {t ac : String} (df : List Obs) :
    (renderPrices t ac df).filter (fun x =>
        decide (priceKey x ∉ (renderPrices t ac df).map priceKey)) = [] := by
  refine List.filter_eq_nil_iff.mpr ?_
  intro r hr
  simp only [decide_eq_true_eq]
  intro hmem
  exact hmem (List.mem_map_of_mem priceKey hr)

lemma foldl_upsert_twice {t ac : String} (df : List Obs) (A : List PriceRow)
    (hnd : (df.map Obs.date).Nodup) :
    (renderPrices t ac df).foldl upsertPriceRow
        ((renderPrices t ac df).foldl upsertPriceRow A) =
      (renderPrices t ac df).foldl upsertPriceRow A := by
  have hknd := @renderPrices_keys_nodup t ac df hnd
  rw [foldl_upsertPriceRow_nodup _ A hknd, foldl_upsertPriceRow_nodup _ _ hknd,
    List.filter_append, List.filter_filter, renders_filter_not_self df]
  have hand : ∀ x : PriceRow,
      (decide (priceKey x ∉ (renderPrices t ac df).map priceKey) &&
        decide (priceKey x ∉ (renderPrices t ac df).map priceKey)) =
        decide (priceKey x ∉ (renderPrices t ac df).map priceKey) :=
    fun x => Bool.and_self _
  simp only [hand, List.append_nil]

/-- C7: calling `store_price_data` twice with the same ordered row sequence
for the same ticker is idempotent — the second call leaves `price_data`
unchanged — and the resulting table holds, for every (ticker, date) key of
the input, exactly the one stored row bound from the input row with that
date. -/
theorem c7_upsert_idempotent (st : DB) (t ac : String) (df : List Obs)
    (hb : ∀ o ∈ df, bindableObs o = true) (hnd : (df.map Obs.date).Nodup)
    (hp : st.pendingPrices = []) :
    ∃ st1 st2, store_price_data st t df ac = .ok st1 ∧
      store_price_data st1 t df ac = .ok st2 ∧
      st2.prices = st1.prices ∧
      ∀ o ∈ df, st2.prices.filter (fun r =>
          (priceKey r = (SQLValue.text t, SQLValue.text (dateText o.date)) : Bool)) =
        [renderPrice t ac o] := by
  have h1 := @store_price_data_clean t ac df st hb
  have h2 := @store_price_data_clean t ac df
    (commitDB { st with
      pendingPrices := st.pendingPrices ++ renderPrices t ac df }) hb
  refine ⟨_, _, h1, h2, ?_, ?_⟩
  · simp only [commitDB, hp, List.nil_append]
    exact foldl_upsert_twice df st.prices hnd
  · intro o ho
    simp only [commitDB, hp, List.nil_append, ← renderPrice_key t ac o]
    rw [foldl_upsert_twice df st.prices hnd]
    exact foldl_upsert_filter_key df st.prices hnd o ho

theorem c7_upsert_idempotent_witness :
    ∃ st1 st2, store_price_data emptyDB "AAA" [obsA, obsB] "equities" = .ok st1 ∧
      store_price_data st1 "AAA" [obsA, obsB] "equities" = .ok st2 ∧
      st2.prices = st1.prices ∧
      ∀ o ∈ [obsA, obsB], st2.prices.filter (fun r =>
          (priceKey r = (SQLValue.text "AAA",
            SQLValue.text (dateText o.date)) : Bool)) =
        [renderPrice "AAA" "equities" o] :=
  c7_upsert_idempotent emptyDB "AAA" "equities" [obsA, obsB] (by decide)
    (by decide) rfl

/-- C8: a `store_price_data` call for an existing (ticker, date) key fully
replaces the stored row in place: afterwards the table's row for that key is
exactly the newly bound row, and the number of rows for that ticker is
unchanged. -/
theorem c8_upsert_replaces (st : DB) (t ac : String) (o : Obs)
    (hb : bindableObs o = true) (hp : st.pendingPrices = [])
    (hone : (st.prices.filter (fun r =>
        (priceKey r = (SQLValue.text t, SQLValue.text (dateText o.date)) : Bool))).length = 1) :
    ∃ st', store_price_data st t [o] ac = .ok st' ∧
      st'.prices.filter (fun r =>
          (priceKey r = (SQLValue.text t, SQLValue.text (dateText o.date)) : Bool)) =
        [renderPrice t ac o] ∧
      countTicker t st'.prices = countTicker t st.prices := by
  have h1 := @store_price_data_clean t ac [o] st (by simpa using hb)
  rw [← renderPrice_key t ac o] at hone
  refine ⟨_, h1, ?_, ?_⟩
  · simp only [commitDB, hp, List.nil_append, ← renderPrice_key t ac o]
    exact foldl_upsert_filter_key [o] st.prices (by simp) o (by simp)
  · simp only [commitDB, hp, List.nil_append, countTicker]
    have htab : (renderPrices t ac [o]).foldl upsertPriceRow st.prices =
        st.prices.filter (fun x =>
          !(priceKey x = priceKey (renderPrice t ac o) : Bool)) ++
          [renderPrice t ac o] := rfl
    rw [htab, List.filter_append]
    have hrt : List.filter (fun r => (r.ticker = SQLValue.text t : Bool))
        [renderPrice t ac o] = [renderPrice t ac o] := by
      simp [renderPrice]
    rw [hrt, List.length_append]
    have hsplit := length_filter_split
      (fun r => (r.ticker = SQLValue.text t : Bool))
      (fun r => (priceKey r = priceKey (renderPrice t ac o) : Bool)) st.prices
    have hq : (st.prices.filter (fun r =>
        (priceKey r = priceKey (renderPrice t ac o) : Bool))).filter
          (fun r => (r.ticker = SQLValue.text t : Bool)) =
        st.prices.filter (fun r =>
          (priceKey r = priceKey (renderPrice t ac o) : Bool)) := by
      refine List.filter_eq_self.mpr ?_
      intro x hx
      have hx2 := (List.mem_filter.mp hx).2
      simp only [decide_eq_true_eq] at hx2 ⊢
      exact priceKey_fst_ticker x _ hx2
    rw [hq, hone] at hsplit
    simp only [List.length_singleton]
    omega

theorem c8_upsert_replaces_witness :
    ∃ st', store_price_data
        (⟨[renderPrice "AAA" "equities" obsA], [], [], []⟩ : DB) "AAA"
        [⟨1, .pyFloat 9, .pyFloat 9, .pyFloat 9, .pyFloat 9, .pyInt 9,
          .pyFloat 9⟩] "equities" = .ok st' ∧
      st'.prices.filter (fun r =>
          (priceKey r = (SQLValue.text "AAA",
            SQLValue.text (dateText (⟨1, .pyFloat 9, .pyFloat 9, .pyFloat 9,
              .pyFloat 9, .pyInt 9, .pyFloat 9⟩ : Obs).date)) : Bool)) =
        [renderPrice "AAA" "equities" ⟨1, .pyFloat 9, .pyFloat 9, .pyFloat 9,
          .pyFloat 9, .pyInt 9, .pyFloat 9⟩] ∧
      countTicker "AAA" st'.prices =
        countTicker "AAA" (⟨[renderPrice "AAA" "equities" obsA], [], [], []⟩ : DB).prices :=
  c8_upsert_replaces ⟨[renderPrice "AAA" "equities" obsA], [], [], []⟩ "AAA"
    "equities" ⟨1, .pyFloat 9, .pyFloat 9, .pyFloat 9, .pyFloat 9, .pyInt 9,
      .pyFloat 9⟩ (by decide) rfl (by simp [renderPrice, priceKey, obsA])

/-- C9 counterexample: a `store_price_data` call whose row carries a
non-numeric string in the `Open` price field does NOT fail: the driver binds
the string as TEXT, SQLite's non-strict typing accepts it in the
REAL-affinity column, and the call commits the row, storing the string
as-is. -/
theorem c9_counterexample :
    toRat (PyValue.pyStr "not a number") = none ∧
    store_price_data emptyDB "AAA" [obsText] "equities" =
      .ok ⟨[⟨.text "AAA", .text (dateText 1), .text "not a number", .real 2,
        .real 1, .real 2, .int 100, .real 2, .text "equities"⟩],
        [], [], []⟩ :=
  ⟨rfl, rfl⟩

/-- C9 amended: `store_price_data` performs no validation of its own; a call
fails (with the driver's binding error) exactly when some row holds a value
the sqlite driver cannot bind, and then commits none of the call's rows —
values it can bind, including non-numeric strings, are stored as-is. -/
theorem c9_amended_unbindable (st : DB) (t ac : String) (df : List Obs)
    (h : ∃ o ∈ df, ¬bindableObs o = true) :
    ∃ e st', store_price_data st t df ac = .error (e, st') ∧
      st'.prices = st.prices ∧ st'.returns = st.returns := by
  cases hres : store_price_data st t df ac with
  | ok st1 =>
    obtain ⟨st2, he, -⟩ := store_price_data_ok_exec hres
    obtain ⟨o, ho, hbad⟩ := h
    exact absurd (executemanyPrices_ok_all_bindable df st st2 he o ho) hbad
  | error es =>
    obtain ⟨e, st'⟩ := es
    have he := store_price_data_error_exec hres
    have hinv := executemanyPrices_error df st e st' he
    exact ⟨e, st', rfl, hinv.1, hinv.2.1⟩

theorem c9_amended_unbindable_witness :
    ∃ e st', store_price_data emptyDB "AAA" [obsBad] "equities" =
        .error (e, st') ∧
      st'.prices = emptyDB.prices ∧ st'.returns = emptyDB.returns :=
  c9_amended_unbindable emptyDB "AAA" "equities" [obsBad]
    ⟨obsBad, by simp, by decide⟩

/-- C1: a run over any catalog and valid date range with a well-behaved
provider (numeric OHLCV cells, per the provider interface) completes and its
call trace is exactly the per-entry pattern, in catalog order: fetch; if the
result is absent nothing is written and the loop moves on; otherwise
`store_price_data` with the fetched observations and then
`calculate_and_store_returns` with the same observations. -/
theorem c1_run_in_catalog_order (p : Provider)
    (assets : List (String × List String)) (s e : Nat) (rs : RunState)
    (hse : s < e) (hp : cleanProvider p s e) :
    ∃ rs', build_database p assets s e rs = .ok rs' ∧
      rs'.log = rs.log ++ specRunEvents p s e assets := by
  obtain ⟨db', h⟩ := buildLoop_clean hse hp assets rs
  exact ⟨_, h, rfl⟩

theorem c1_run_in_catalog_order_witness :
    ∃ rs', build_database (fun _ _ _ => .ok [obsA])
        [("equities", ["AAA", "BBB"])] 0 1 ⟨emptyDB, []⟩ = .ok rs' ∧
      rs'.log = [] ++ specRunEvents (fun _ _ _ => .ok [obsA]) 0 1
        [("equities", ["AAA", "BBB"])] :=
  c1_run_in_catalog_order (fun _ _ _ => .ok [obsA])
    [("equities", ["AAA", "BBB"])] 0 1 ⟨emptyDB, []⟩ (by decide)
    (fun t df h => by rw [← ProviderResult.ok.inj h]; decide)

/-- C5 counterexample: with a provider returning an unbindable cell for
"AAA", the `store_price_data` call raises and the raise propagates out of
`build_database`: the run terminates with the error instead of completing,
and the second catalog identifier "BBB" is never attempted (the final trace
stops at the failed store call). -/
theorem c5_counterexample :
    build_database
        (fun t _ _ => if t = "AAA" then .ok [obsBad] else .ok [obsA])
        [("equities", ["AAA", "BBB"])] 0 1 ⟨emptyDB, []⟩ =
      .error (.interfaceError,
        ⟨emptyDB, [.fetch "AAA" (some [obsBad]),
          .storePrices "AAA" [obsBad] "equities"]⟩) := rfl

/-- C5 amended: `build_database` has no handler around the two store calls:
a storage failure for one identifier propagates out of the run immediately
(nothing further is logged or attempted) — the remaining identifiers of the
same asset class (`post`), and all later asset classes (`rest`), are never
processed.  Only fetch failures are isolated per identifier. -/
theorem c5_amended_write_failure_aborts (p : Provider) (s e : Nat)
    (assetsPre : List (String × List String)) (ac : String)
    (pre post : List String) (t : String)
    (rest : List (String × List String)) (rs0 rs rsMid : RunState)
    (err : PyErr) (rsErr : RunState)
    (h0 : buildLoop p s e assetsPre rs0 = .ok rs)
    (h1 : processTickers p s e ac pre rs = .ok rsMid)
    (h2 : processTicker p s e ac t rsMid = .error (err, rsErr)) :
    build_database p (assetsPre ++ (ac, pre ++ t :: post) :: rest) s e rs0 =
      .error (err, rsErr) := by
  have hts : processTickers p s e ac (pre ++ t :: post) rs =
      .error (err, rsErr) := by
    rw [processTickers_append_ok pre h1]
    exact processTickers_cons_error post h2
  rw [build_database, buildLoop_append_ok assetsPre h0,
    buildLoop_cons_error rest hts]

theorem c5_amended_write_failure_aborts_witness :
    build_database
        (fun t _ _ => if t = "AAA" then .ok [obsBad] else .ok [obsA])
        ([] ++ ("equities", [] ++ "AAA" :: ["BBB"]) :: [("bonds", ["TLT"])])
        0 1 ⟨emptyDB, []⟩ =
      .error (.interfaceError,
        ⟨emptyDB, [.fetch "AAA" (some [obsBad]),
          .storePrices "AAA" [obsBad] "equities"]⟩) :=
  c5_amended_write_failure_aborts
    (fun t _ _ => if t = "AAA" then .ok [obsBad] else .ok [obsA]) 0 1
    [] "equities" [] ["BBB"] "AAA" [("bonds", ["TLT"])]
    ⟨emptyDB, []⟩ ⟨emptyDB, []⟩ ⟨emptyDB, []⟩ .interfaceError
    ⟨emptyDB, [.fetch "AAA" (some [obsBad]),
      .storePrices "AAA" [obsBad] "equities"]⟩ rfl rfl rfl

lemma specTickerEvents_error {p : Provider} {t : String} {s e : Nat}
    {e1 : PyErr} (ac : String) (hd : download_data p t s e = .error e1) :
    specTickerEvents p s e ac t = [] := by
  rw [specTickerEvents, hd]

lemma mem_spec_storePrices {p : Provider} {s e : Nat}
    {assets : List (String × List String)} {t : String} {df : List Obs}
    {ac : String}
    (h : Event.storePrices t df ac ∈ specRunEvents p s e assets) :
    (ac, t) ∈ catalogPairs assets ∧ download_data p t s e = .ok (some df) := by
  unfold specRunEvents at h
  obtain ⟨pr, hpr, hev⟩ := List.mem_flatMap.mp h
  obtain ⟨ac', t'⟩ := pr
  cases hd : download_data p t' s e with
  | error e1 =>
    rw [specTickerEvents_error ac' hd] at hev
    exact absurd hev (by simp)
  | ok res =>
    cases res with
    | none =>
      rw [specTickerEvents_none ac' hd] at hev
      simp at hev
    | some df' =>
      rw [specTickerEvents_some ac' hd] at hev
      simp only [List.mem_cons, List.mem_singleton] at hev
      rcases hev with hev | hev | hev
      · exact absurd hev (by simp)
      · obtain ⟨rfl, rfl, rfl⟩ := Event.storePrices.inj hev
        exact ⟨hpr, hd⟩
      · exact absurd hev (by simp)

lemma mem_spec_storeReturns {p : Provider} {s e : Nat}
    {assets : List (String × List String)} {t : String} {df : List Obs}
    {ac : String} (hpair : (ac, t) ∈ catalogPairs assets)
    (hd : download_data p t s e = .ok (some df)) :
    Event.storeReturns t df ac ∈ specRunEvents p s e assets := by
  unfold specRunEvents
  refine List.mem_flatMap.mpr ⟨(ac, t), hpair, ?_⟩
  rw [specTickerEvents_some ac hd]
  simp

/-- C10: in a completed run with a well-behaved provider, every
`store_price_data` call has a matching `calculate_and_store_returns` call
for the same ticker, DataFrame and catalog asset class; the rows the price
call inserts and the rows the returns call inserts carry exactly the same
(ticker, date) key sequence; every inserted row of both tables carries the
asset-class label of the catalog entry it was processed under. -/
theorem c10_price_return_keys_aligned (p : Provider)
    (assets : List (String × List String)) (s e : Nat) (rs rs' : RunState)
    (hse : s < e) (hp : cleanProvider p s e) (hlog : rs.log = [])
    (hrun : build_database p assets s e rs = .ok rs')
    (t : String) (df : List Obs) (ac : String)
    (hmem : Event.storePrices t df ac ∈ rs'.log) :
    Event.storeReturns t df ac ∈ rs'.log ∧
    (ac, t) ∈ catalogPairs assets ∧
    (renderPrices t ac df).map priceKey =
      (renderReturns t ac df).map returnKey ∧
    (∀ r ∈ renderPrices t ac df, r.assetClass = .text ac) ∧
    (∀ r ∈ renderReturns t ac df, r.assetClass = .text ac) ∧
    (∀ db : DB, store_price_data db t df ac =
      .ok (commitDB { db with
        pendingPrices := db.pendingPrices ++ renderPrices t ac df })) ∧
    (∀ db : DB, calculate_and_store_returns db t df ac =
      .ok (commitDB { db with
        pendingReturns := db.pendingReturns ++ renderReturns t ac df })) := by
  obtain ⟨db', heq⟩ := buildLoop_clean hse hp assets rs
  rw [build_database] at hrun
  rw [hrun] at heq
  have hrs' : rs' = ⟨db', rs.log ++ specRunEvents p s e assets⟩ :=
    Except.ok.inj heq
  have hlog' : rs'.log = specRunEvents p s e assets := by
    rw [hrs', hlog]
    rfl
  rw [hlog'] at hmem
  obtain ⟨hpair, hd⟩ := mem_spec_storePrices hmem
  have hcl : cleanDf df = true := hp t df (download_data_ok_some hd).1
  refine ⟨?_, hpair, ?_, ?_, ?_, ?_, ?_⟩
  · rw [hlog']
    exact mem_spec_storeReturns hpair hd
  · rw [renderPrices_keys, renderReturns_keys]
  · intro r hr
    obtain ⟨o, -, rfl⟩ := List.mem_map.mp hr
    rfl
  · intro r hr
    unfold renderReturns at hr
    obtain ⟨tu, -, rfl⟩ := List.mem_map.mp hr
    rfl
  · intro db
    exact store_price_data_clean (cleanDf_bindable hcl)
  · intro db
    exact calculate_and_store_returns_clean hcl

theorem c10_price_return_keys_aligned_witness :
    Event.storeReturns "AAA" [obsA] "equities" ∈
      [Event.fetch "AAA" (some [obsA]),
        Event.storePrices "AAA" [obsA] "equities",
        Event.storeReturns "AAA" [obsA] "equities"] ∧
    ("equities", "AAA") ∈ catalogPairs [("equities", ["AAA"])] ∧
    (renderPrices "AAA" "equities" [obsA]).map priceKey =
      (renderReturns "AAA" "equities" [obsA]).map returnKey ∧
    (∀ r ∈ renderPrices "AAA" "equities" [obsA],
      r.assetClass = .text "equities") ∧
    (∀ r ∈ renderReturns "AAA" "equities" [obsA],
      r.assetClass = .text "equities") ∧
    (∀ db : DB, store_price_data db "AAA" [obsA] "equities" =
      .ok (commitDB { db with
        pendingPrices := db.pendingPrices ++
          renderPrices "AAA" "equities" [obsA] })) ∧
    (∀ db : DB, calculate_and_store_returns db "AAA" [obsA] "equities" =
      .ok (commitDB { db with
        pendingReturns := db.pendingReturns ++
          renderReturns "AAA" "equities" [obsA] })) :=
  c10_price_return_keys_aligned (fun _ _ _ => .ok [obsA])
    [("equities", ["AAA"])] 0 1 ⟨emptyDB, []⟩
    ⟨cleanStepDB emptyDB "AAA" "equities" [obsA],
      [Event.fetch "AAA" (some [obsA]),
        Event.storePrices "AAA" [obsA] "equities",
        Event.storeReturns "AAA" [obsA] "equities"]⟩
    (by decide) (fun t df h => by rw [← ProviderResult.ok.inj h]; decide)
    rfl rfl "AAA" [obsA] "equities" (by simp)

end DataPipeline
